import Mathlib

/-!
# nm-proxy: address allocation (`GetFreeIp`) and the relay loop (`ProxyToRemote`)

A shallow embedding of `nm-proxy/proxy/wireguard.go`.

* IPv4 addresses are natural numbers below `2^32` (the big-endian value of the four bytes).
* A Go `error` is `Option String`: `none` is `nil`, `some s` is an error whose `Error()` text is `s`.
* Effects (commands run, sockets dialled, packets written) are recorded as lists of events, and
  the answers of the operating system are supplied by an environment.
-/

namespace NmProxy

/-! ## Go standard library: `strings.Contains` -/

/-- Does the character list start with `p`? -/
def hasPrefixChars : List Char → List Char → Bool
  | _, [] => true
  | [], _ :: _ => false
  | c :: cs, p :: ps => c == p && hasPrefixChars cs ps

/-- Does `sub` occur in the character list as a contiguous block? -/
def containsChars : List Char → List Char → Bool
  | [], sub => sub.isEmpty
  | c :: cs, sub => hasPrefixChars (c :: cs) sub || containsChars cs sub

/-- Go `strings.Contains(s, substr)`. -/
def strings.Contains (s substr : String) : Bool :=
  containsChars s.toList substr.toList

/-! ## The address-range utility (`github.com/c-robinson/iplib`, `Net4`)

The library is an external dependency of the repository. Its functions are embedded from the
library's published behaviour: `FirstAddress` is the first usable host (the network address itself
for a /31 or /32), `BroadcastAddress` is the last address of the block, and `Net4.NextIP`
increments an address and reports `ErrAddressOutOfRange` when the argument or the result is
outside the block and `ErrBroadcastAddress` (together with the address) when the result is the
broadcast address. -/

/-- An IPv4 block: the network address and the number of leading one bits of the mask. -/
structure Net4 where
  IP : Nat
  ones : Nat
deriving DecidableEq, Repr

/-- Number of host bits of the block. -/
def Net4.hostBits (n : Net4) : Nat := 32 - n.ones

/-- The block `iplib.NewNet4(ip, masklen)`: the address is masked to the network address. -/
def NewNet4 (ip masklen : Nat) : Net4 :=
  ⟨ip / 2 ^ (32 - masklen) * 2 ^ (32 - masklen), masklen⟩

/-- Go `IPNet.Contains`: the masked address equals the masked network address. -/
def Net4.Contains (n : Net4) (ip : Nat) : Bool :=
  ip / 2 ^ n.hostBits == n.IP / 2 ^ n.hostBits

/-- The last address of the block (`iplib.Net4.BroadcastAddress`). -/
def Net4.BroadcastAddress (n : Net4) : Nat :=
  n.IP + (2 ^ n.hostBits - 1)

/-- The package-level `iplib.NextIP`: increment the four bytes with carry; the all-ones address
255.255.255.255 has no successor and is returned unchanged (no wrap to 0.0.0.0). -/
def iplib.NextIP (ip : Nat) : Nat := if ip + 1 < 2 ^ 32 then ip + 1 else ip

/-- The method `iplib.Net4.FirstAddress`: the network address itself for a /31 or /32, the address
after it otherwise. -/
def Net4.FirstAddress (n : Net4) : Nat :=
  if 31 ≤ n.ones then n.IP else iplib.NextIP n.IP

/-- Text of `iplib.ErrAddressOutOfRange`. -/
def ErrAddressOutOfRange : String := "address is not a part of this netblock"

/-- Text of `iplib.ErrBroadcastAddress`. -/
def ErrBroadcastAddress : String :=
  "address is the broadcast address of this netblock (and not considered usable)"

/-- The method `iplib.Net4.NextIP`: the returned pair is the address (`0` stands for the empty
`net.IP`) and the error. -/
def Net4.NextIP (n : Net4) (ip : Nat) : Nat × Option String :=
  if !n.Contains ip then (0, some ErrAddressOutOfRange)
  else
    let xip := iplib.NextIP ip
    if !n.Contains xip then (0, some ErrAddressOutOfRange)
    else if n.BroadcastAddress == xip then (xip, some ErrBroadcastAddress)
    else (xip, none)

/-- Go `net.IP.String` for an IPv4 address: dotted decimal. -/
def IPString (ip : Nat) : String :=
  toString (ip / 2 ^ 24 % 256) ++ "." ++ toString (ip / 2 ^ 16 % 256) ++ "." ++
    toString (ip / 2 ^ 8 % 256) ++ "." ++ toString (ip % 256)

/-! ## `GetFreeIp` -/

/-- Go `net.UDPAddr`. -/
structure UDPAddr where
  IP : Nat
  Port : Int
deriving DecidableEq, Repr

/-- The address 127.0.0.1. -/
def loopback : Nat := 127 * 2 ^ 24 + 1

/-- Observable effects, in program order: commands run through `common.RunCmd`, dials and closes
of the probe socket, reads of the local socket, writes to the shared relay socket, and calls of
`p.Cancel()`. -/
inductive Event where
  | RunCmd (cmd : String)
  | DialUDP (laddr raddr : UDPAddr)
  | Close (laddr : UDPAddr)
  | Read
  | WriteToUDP (b : List Nat) (addr : UDPAddr)
  | Cancel
deriving DecidableEq, Repr

/-- What the allocator is run against: the platform, the fixed proxy port
(`models.NmProxyPort`), and the outcome of each `net.DialUDP` call. The outcome may depend on how
many dial attempts came before (`none` is a successful dial, `some s` an error with text `s`). -/
structure Env where
  GOOS : String
  NmProxyPort : Int
  DialUDP : Nat → UDPAddr → UDPAddr → Option String

/-- The argument `cidrAddr` after `net.ParseCIDR` and `iplib.Net4FromStr`: either the parse
error, or the address and mask length of an IPv4 range. A range that is not IPv4 is not
represented. -/
inductive CIDR where
  | invalid (err : String)
  | v4 (ip masklen : Nat)
deriving DecidableEq, Repr

/-- Return values of `GetFreeIp` together with the effects it performed. -/
structure Ret where
  addr : String
  err : Option String
  trace : List Event
deriving DecidableEq, Repr

/-- Put the events of the earlier iterations in front of those of the rest of the loop. -/
def Ret.after (pre : List Event) (r : Ret) : Ret :=
  { r with trace := pre ++ r.trace }

/-- The test on the dial error's text that makes the allocator move to the next address. -/
def isContention (err : String) : Bool :=
  strings.Contains err "can't assign requested address" ||
    strings.Contains err "address already in use" ||
    strings.Contains err "cannot assign requested address"

/-- The alias command issued on darwin before each dial. -/
def aliasEvents (env : Env) (newAddrs : Nat) : List Event :=
  if env.GOOS = "darwin" then
    [Event.RunCmd ("ifconfig lo0 alias " ++ IPString newAddrs ++ " 255.255.255.255")]
  else []

/-- The `for` loop of `GetFreeIp`. `attempt` counts the dials made so far and `newAddrs` is the
loop variable of the source. The recursion is on `fuel`; `none` means the fuel ran out. -/
def GetFreeIpLoop (env : Env) (net4 : Net4) (dstPort : Int) : Nat → Nat → Nat → Option Ret
  | 0, _, _ => none
  | fuel + 1, attempt, newAddrs =>
    let laddr : UDPAddr := ⟨newAddrs, env.NmProxyPort⟩
    let raddr : UDPAddr := ⟨loopback, dstPort⟩
    let pre := aliasEvents env newAddrs ++ [Event.DialUDP laddr raddr]
    match env.DialUDP attempt laddr raddr with
    | some err =>
      if isContention err then
        match net4.NextIP newAddrs with
        | (next, none) => (GetFreeIpLoop env net4 dstPort fuel (attempt + 1) next).map (Ret.after pre)
        | (_, some nErr) => some ⟨"", some nErr, pre⟩
      else some ⟨"", some err, pre⟩
    | none => some ⟨IPString newAddrs, none, pre ++ [Event.Close laddr]⟩

/-- The function `GetFreeIp(cidrAddr, dstPort)`. The loop is given as many iterations as the block
has addresses, which `GetFreeIp_returns` shows is always enough. -/
def GetFreeIp (env : Env) (cidrAddr : CIDR) (dstPort : Int) : Option Ret :=
  if dstPort = 0 then some ⟨"", some "dst port should be set", []⟩
  else
    match cidrAddr with
    | .invalid err => some ⟨"", some err, []⟩
    | .v4 ip masklen =>
      let net4 := NewNet4 ip masklen
      GetFreeIpLoop env net4 dstPort (2 ^ net4.hostBits) 0 net4.FirstAddress

/-- The candidate addresses from `a` on: `a`, then `NextIP` of it, and so on while `NextIP`
reports no error. -/
def candidatesFrom (net4 : Net4) : Nat → Nat → List Nat
  | 0, _ => []
  | fuel + 1, a =>
    a :: (match net4.NextIP a with
      | (next, none) => candidatesFrom net4 fuel next
      | (_, some _) => [])

/-- The candidate addresses of a range in the order `FirstAddress, NextIP, NextIP, ...`. -/
def candidates (net4 : Net4) : List Nat :=
  candidatesFrom net4 (2 ^ net4.hostBits) net4.FirstAddress

/-- The local addresses of the dial attempts of a trace, in order. -/
def dialed : List Event → List Nat
  | [] => []
  | Event.DialUDP laddr _ :: rest => laddr.IP :: dialed rest
  | _ :: rest => dialed rest

/-- A block as `NewNet4` builds it from a 32-bit address and a mask length of at most 32: the
network address is a multiple of the block size and the block ends within the address space. -/
def Net4.Valid (n : Net4) : Prop :=
  n.ones ≤ 32 ∧ n.IP % 2 ^ n.hostBits = 0 ∧ n.IP + 2 ^ n.hostBits ≤ 2 ^ 32

instance (n : Net4) : Decidable n.Valid := by
  unfold Net4.Valid
  infer_instance

/-- The positions the loop of `GetFreeIp` can be in: inside the block, at most at the broadcast
address, and at it only in a /32. -/
def Net4.InRange (n : Net4) (a : Nat) : Prop :=
  n.IP ≤ a ∧ a ≤ n.BroadcastAddress ∧ (a < n.BroadcastAddress ∨ n.ones = 32)

instance (n : Net4) (a : Nat) : Decidable (n.InRange a) := by
  unfold Net4.InRange
  infer_instance

/-- Number of addresses the loop can try from `a` on. -/
def Net4.remaining (n : Net4) (a : Nat) : Nat := max 1 (n.BroadcastAddress - a)

/-! ## The metrics store -/

/-- Modelled from the spec: the record type `metrics.Metric` is declared outside the given
sources. Section 3 (PeerMetric) gives its content: cumulative bytes sent, the connection-status
flag and a last-update timestamp. `TrafficSent` is a `uint64`. -/
structure Metric where
  TrafficSent : Nat
  ConnectionStatus : Bool
  LastUpdate : Int
deriving DecidableEq, Repr

/-- The zero value of `Metric`, which indexing a Go map yields for an absent key. -/
def Metric.zero : Metric := ⟨0, false, 0⟩

/-- The map `metrics.MetricsMap`, from the textual form of a peer key to its record. -/
abbrev Store := String → Option Metric

/-- Go map indexing `m[k]`. -/
def Store.get (m : Store) (k : String) : Metric := (m k).getD Metric.zero

/-- Go map assignment `m[k] = v`. -/
def Store.set (m : Store) (k : String) (v : Metric) : Store :=
  fun k' => if k' = k then some v else m k'

/-! ## `ProxyToRemote` -/

/-- The struct `packet.MetricMessage` of `packet_helper.go`; keys are kept in textual form. -/
structure MetricMessage where
  MsgType : Nat
  ID : Nat
  Sender : String
  Reciever : String
  TimeStamp : Int
deriving DecidableEq, Repr

/-- The fields of `Config` the relay loop reads. -/
structure Config where
  LocalKey : String
  RemoteKey : String
  IsExtClient : Bool

/-- A session: its configuration, the text of `p.LocalConn.LocalAddr()` and the remote relay
address `p.RemoteConn`. -/
structure Proxy where
  Config : Config
  LocalAddr : String
  RemoteConn : UDPAddr

/-- What the relay loop is run on: the platform, `net.SplitHostPort`, the public key of the local
interface, and the parts of package `packet` that are outside the given sources (the payload
augmentation, the type tag of a metric message and its binary encoding). -/
structure Platform where
  GOOS : String
  SplitHostPort : String → Except String (String × String)
  IfacePublicKey : String
  ProcessPacketBeforeSending : List Nat → Nat → String → String → List Nat × Nat × String × String
  MessageMetricsType : Nat
  encode : MetricMessage → List Nat

/-- Modelled from the spec: `packet.CreateMetricPacket` is outside the given sources. Section 4.2
gives `BuildMetricPacket(id, senderKey, receiverKey) → bytes`: the serialisation of a
MetricMessage with the fixed type tag and the wall-clock time at build time. It always yields a
packet; the error result of the Go signature is never set. -/
def CreateMetricPacket (plat : Platform) (now : Int) (id : Nat) (sender reciever : String) :
    Except String (List Nat) :=
  .ok (plat.encode ⟨plat.MessageMetricsType, id, sender, reciever, now⟩)

/-- What the outside supplies to one iteration of the loop: the runtime's choice between the two
channel cases when both are ready, the result of `p.LocalConn.Read(buf)` (an error text or the
bytes read), the presence set `common.WgIfaceMap.PeerMap` at the time it is consulted, the fresh
packet id, the clock, and the results of `WriteToUDP` and of `common.RunCmd`. -/
structure Input where
  pickTick : Bool
  read : Except String (List Nat)
  PeerMap : String → Bool
  id : Nat
  now : Int
  writeErr : Option String
  cmdErr : Option String

/-- State of a running relay loop: whether `p.Ctx` is cancelled, whether a tick is waiting in
`ticker.C`, the metrics store, the loop's buffer `buf`, and the effects performed so far. -/
structure State where
  done : Bool
  tick : Bool
  MetricsMap : Store
  buf : List Nat
  events : List Event

/-- How an iteration ends: the loop goes on, or `ProxyToRemote` returns. -/
inductive Next where
  | loop (s : State)
  | exit (s : State)

/-- The state an iteration ends in. -/
def Next.state : Next → State
  | .loop s => s
  | .exit s => s

/-- Did the iteration leave the loop? -/
def Next.exited : Next → Bool
  | .loop _ => false
  | .exit _ => true

/-- The three cases of the `select` statement. -/
inductive Branch where
  | done
  | tick
  | default
deriving DecidableEq, Repr

/-- Go `select` over `<-p.Ctx.Done()`, `<-ticker.C` and `default`: when exactly one channel case
is ready it is taken, when both are ready the runtime takes one of them by a pseudo-random
choice (`pickTick`), and `default` is taken only when neither is ready. -/
def select (doneReady tickReady pickTick : Bool) : Branch :=
  match doneReady, tickReady with
  | true, true => if pickTick then Branch.tick else Branch.done
  | true, false => Branch.done
  | false, true => Branch.tick
  | false, false => Branch.default

/-- The case `<-p.Ctx.Done()`: on darwin the loopback alias of the local host is removed unless
the host is 127.0.0.1; then the function returns. -/
def doneBranch (plat : Platform) (p : Proxy) (s : State) : State :=
  if plat.GOOS = "darwin" then
    match plat.SplitHostPort p.LocalAddr with
    | .error _ => s
    | .ok (host, _) =>
      if host ≠ "127.0.0.1" then
        { s with events := s.events ++
            [Event.RunCmd ("ifconfig lo0 -alias " ++ host ++ " 255.255.255.255")] }
      else s
  else s

/-- The case `<-ticker.C`: the tick is consumed, the connection status of the remote key is set to
false, and a metric packet is written to the remote relay address when it could be built. -/
def tickBranch (plat : Platform) (p : Proxy) (inp : Input) (s : State) : State :=
  let metric := s.MetricsMap.get p.Config.RemoteKey
  let metric := { metric with ConnectionStatus := false }
  let s := { s with tick := false, MetricsMap := s.MetricsMap.set p.Config.RemoteKey metric }
  match CreateMetricPacket plat inp.now inp.id p.Config.LocalKey p.Config.RemoteKey with
  | .ok pkt => { s with events := s.events ++ [Event.WriteToUDP pkt p.RemoteConn] }
  | .error _ => s

/-- The `default` case: a blocking read, then either the forwarding of the payload or, when the
remote key is not in the presence set, `p.Cancel()` and return. -/
def defaultBranch (plat : Platform) (p : Proxy) (inp : Input) (s : State) : Next :=
  match inp.read with
  | .error _ => .loop { s with events := s.events ++ [Event.Read] }
  | .ok data =>
    let n := data.length
    let buf := data ++ s.buf.drop n
    if inp.PeerMap p.Config.RemoteKey then
      let metric := s.MetricsMap.get p.Config.RemoteKey
      let metric := { metric with TrafficSent := (metric.TrafficSent + n) % 2 ^ 64 }
      let store := s.MetricsMap.set p.Config.RemoteKey metric
      let r := if !p.Config.IsExtClient then
          plat.ProcessPacketBeforeSending buf n plat.IfacePublicKey p.Config.RemoteKey
        else (buf, n, "", "")
      .loop { s with
        MetricsMap := store
        buf := r.1
        events := s.events ++ [Event.Read, Event.WriteToUDP (r.1.take r.2.1) p.RemoteConn] }
    else
      .exit { s with done := true, buf := buf, events := s.events ++ [Event.Read, Event.Cancel] }

/-- One iteration of the `for` loop of `ProxyToRemote`. -/
def step (plat : Platform) (p : Proxy) (inp : Input) (s : State) : Next :=
  match select s.done s.tick inp.pickTick with
  | Branch.done => .exit (doneBranch plat p s)
  | Branch.tick => .loop (tickBranch plat p inp s)
  | Branch.default => defaultBranch plat p inp s

/-- What reaches the session between two iterations: calls of `p.Cancel()` from outside and a
tick of the ticker. -/
structure Arrival where
  cancels : Nat
  tick : Bool

/-- The state after the outside events: every outside call of `p.Cancel()` is recorded and
cancels the context, a tick fills `ticker.C`. -/
def arrive (a : Arrival) (s : State) : State :=
  { s with
    done := s.done || decide (0 < a.cancels)
    tick := s.tick || a.tick
    events := s.events ++ List.replicate a.cancels Event.Cancel }

/-- The method `ProxyToRemote`: its `for` loop run on a finite schedule of outside events and
inputs (the closer goroutine is not part of it). It stops at the iteration
that returns, or when the schedule ends with the loop still running. -/
def ProxyToRemote (plat : Platform) (p : Proxy) : List (Arrival × Input) → State → Next
  | [], s => .loop s
  | (a, inp) :: rest, s =>
    match step plat p inp (arrive a s) with
    | .exit s' => .exit s'
    | .loop s' => ProxyToRemote plat p rest s'

/-- Number of alias removals (`ifconfig lo0 -alias ...`) among the effects. -/
def aliasRemovals : List Event → Nat
  | [] => 0
  | Event.RunCmd cmd :: rest =>
    (if strings.Contains cmd "-alias" then 1 else 0) + aliasRemovals rest
  | _ :: rest => aliasRemovals rest

/-- The packets written to the relay socket among the effects, in order. -/
def written : List Event → List (List Nat × UDPAddr)
  | [] => []
  | Event.WriteToUDP b addr :: rest => (b, addr) :: written rest
  | _ :: rest => written rest

/-! ## Concrete ranges and environments -/

/-- The address `a.b.c.d` as a number. -/
def ipv4 (a b c d : Nat) : Nat := a * 2 ^ 24 + b * 2 ^ 16 + c * 2 ^ 8 + d

/-- The text of the error of `net.DialUDP` when the local address is already bound. -/
def errInUse : String := "dial udp: bind: address already in use"

/-- The text of a dial error that is not about address contention. -/
def errDenied : String := "dial udp: bind: permission denied"

/-- An environment in which the local addresses in `bound` are taken and every other one is
free. -/
def envBound (bound : List Nat) : Env :=
  ⟨"linux", 51722, fun _ laddr _ => if laddr.IP ∈ bound then some errInUse else none⟩

/-- An environment in which the addresses in `bound` are taken and a dial from `bad` is refused
for another reason. -/
def envDenied (bound : List Nat) (bad : Nat) : Env :=
  ⟨"linux", 51722, fun _ laddr _ =>
    if laddr.IP ∈ bound then some errInUse
    else if laddr.IP = bad then some errDenied else none⟩

/-- Number of reads of the local socket among the effects. -/
def reads : List Event → Nat
  | [] => 0
  | Event.Read :: rest => 1 + reads rest
  | _ :: rest => reads rest

/-- A host and port split at the first colon, as `net.SplitHostPort` does for the text of an IPv4
socket address. -/
def splitAtColon (s : String) : Except String (String × String) :=
  .ok (String.mk (s.toList.takeWhile (fun c => c != ':')),
    String.mk ((s.toList.dropWhile (fun c => c != ':')).drop 1))

/-- A platform for the concrete runs: the payload augmentation appends a 32-byte routing header,
and a metric message is encoded as the list of its type tag and id. -/
def platform (goos : String) : Platform :=
  { GOOS := goos
    SplitHostPort := splitAtColon
    IfacePublicKey := "ifaceKey"
    ProcessPacketBeforeSending := fun buf n _ _ =>
      (buf.take n ++ List.replicate 32 0, n + 32, "", "")
    MessageMetricsType := 4
    encode := fun m => [m.MsgType, m.ID] }

/-- A session for the peer `peerK`, bound to 10.0.0.2. -/
def proxyK : Proxy :=
  { Config := ⟨"localKey", "peerK", false⟩
    LocalAddr := "10.0.0.2:51722"
    RemoteConn := ⟨ipv4 203 0 113 7, 51821⟩ }

/-- A metrics store holding one record, for `peerK`, with the given counter. -/
def storeK (sent : Nat) : Store :=
  fun k => if k = "peerK" then some ⟨sent, true, 0⟩ else none

/-- A state of the loop with the given signals and counter of `peerK`, an empty buffer and no
effects yet. -/
def stateK (done tick : Bool) (sent : Nat) : State :=
  ⟨done, tick, storeK sent, [], []⟩

/-- An input whose read succeeds with `data`, with the peer present or not, in which the runtime
would take the timer case when both channels are ready, and the relay write fails. -/
def inputK (data : List Nat) (present : Bool) : Input :=
  { pickTick := true
    read := .ok data
    PeerMap := fun _ => present
    id := 7
    now := 1700000000000
    writeErr := some "write udp: network is unreachable"
    cmdErr := none }

/-! ## Arithmetic of blocks -/

theorem NewNet4_valid (ip masklen : Nat) (hip : ip < 2 ^ 32) (hm : masklen ≤ 32) :
    (NewNet4 ip masklen).Valid := by
  have hp : 0 < 2 ^ (32 - masklen) := Nat.pow_pos (by decide)
  have hsplit : 2 ^ 32 = 2 ^ masklen * 2 ^ (32 - masklen) := by
    rw [← Nat.pow_add]; congr 1; omega
  refine ⟨hm, ?_, ?_⟩
  · simp [NewNet4, Net4.hostBits]
  · simp only [NewNet4, Net4.hostBits]
    have hq : ip / 2 ^ (32 - masklen) < 2 ^ masklen := by
      rw [Nat.div_lt_iff_lt_mul hp, ← hsplit]; exact hip
    calc ip / 2 ^ (32 - masklen) * 2 ^ (32 - masklen) + 2 ^ (32 - masklen)
        = (ip / 2 ^ (32 - masklen) + 1) * 2 ^ (32 - masklen) := by ring
      _ ≤ 2 ^ masklen * 2 ^ (32 - masklen) := Nat.mul_le_mul_right _ hq
      _ = 2 ^ 32 := hsplit.symm

theorem Net4.contains_iff {n : Net4} (hv : n.Valid) (a : Nat) :
    n.Contains a = true ↔ n.IP ≤ a ∧ a < n.IP + 2 ^ n.hostBits := by
  obtain ⟨_, hmod, _⟩ := hv
  have hp : 0 < 2 ^ n.hostBits := Nat.pow_pos (by decide)
  have hIP : n.IP / 2 ^ n.hostBits * 2 ^ n.hostBits = n.IP :=
    Nat.div_mul_cancel (Nat.dvd_of_mod_eq_zero hmod)
  generalize hq : n.IP / 2 ^ n.hostBits = q at hIP
  simp only [Net4.Contains, beq_iff_eq, hq]
  constructor
  · intro h
    have h1 : q ≤ a / 2 ^ n.hostBits := by omega
    have h2 : a / 2 ^ n.hostBits < q + 1 := by omega
    rw [Nat.le_div_iff_mul_le hp] at h1
    rw [Nat.div_lt_iff_lt_mul hp] at h2
    constructor
    · omega
    · calc a < (q + 1) * 2 ^ n.hostBits := h2
        _ = n.IP + 2 ^ n.hostBits := by rw [← hIP]; ring
  · rintro ⟨h1, h2⟩
    have h1' : q ≤ a / 2 ^ n.hostBits := by
      rw [Nat.le_div_iff_mul_le hp]; omega
    have h2' : a / 2 ^ n.hostBits < q + 1 := by
      rw [Nat.div_lt_iff_lt_mul hp]
      calc a < n.IP + 2 ^ n.hostBits := h2
        _ = (q + 1) * 2 ^ n.hostBits := by rw [← hIP]; ring
    omega

theorem iplib.NextIP_of_lt {a : Nat} (h : a + 1 < 2 ^ 32) : iplib.NextIP a = a + 1 := by
  unfold iplib.NextIP
  rw [if_pos h]

/-- Within a valid block and below its broadcast address (or in a /32), a step of `NextIP` that
reports no error moves to the very next address, which is still below the broadcast address. -/
theorem Net4.nextIP_ok {n : Net4} (hv : n.Valid) {a x : Nat}
    (hlo : n.IP ≤ a) (hhi : a ≤ n.BroadcastAddress) (hlt : a < n.BroadcastAddress ∨ n.ones = 32)
    (h : n.NextIP a = (x, none)) : x = a + 1 ∧ a + 1 < n.BroadcastAddress := by
  have hp : 0 < 2 ^ n.hostBits := Nat.pow_pos (by decide)
  have hv' := hv
  obtain ⟨ho, hmod, htop⟩ := hv'
  have hca : n.Contains a = true := by
    rw [Net4.contains_iff hv]; simp only [Net4.BroadcastAddress] at hhi; omega
  simp only [Net4.NextIP, hca, Bool.not_true, Bool.false_eq_true, if_false] at h
  by_cases hcx : n.Contains (iplib.NextIP a) = true
  · simp only [hcx, Bool.not_true, Bool.false_eq_true, if_false] at h
    by_cases hb : (n.BroadcastAddress == iplib.NextIP a) = true
    · simp [hb] at h
    · simp only [hb, Bool.false_eq_true, if_false, Prod.mk.injEq, and_true] at h
      simp only [beq_iff_eq] at hb
      rw [Net4.contains_iff hv] at hcx
      simp only [Net4.BroadcastAddress] at hhi hlt hb ⊢
      rcases hlt with hlt | h32
      · have : iplib.NextIP a = a + 1 := iplib.NextIP_of_lt (by omega)
        rw [this] at h hb
        omega
      · have h0 : n.hostBits = 0 := by simp [Net4.hostBits, h32]
        rw [h0] at hcx hhi htop hb
        simp only [pow_zero] at hcx hhi htop hb
        exfalso
        by_cases hw : a + 1 < 2 ^ 32
        · rw [iplib.NextIP_of_lt hw] at hcx; omega
        · have : iplib.NextIP a = a := by
            unfold iplib.NextIP
            rw [if_neg hw]
          rw [this] at hb; omega
  · simp [hcx] at h

/-- Inside a valid block, strictly more than one step below the broadcast address, `NextIP`
returns the very next address and no error. -/
theorem Net4.nextIP_succ {n : Net4} (hv : n.Valid) {a : Nat}
    (hlo : n.IP ≤ a) (h : a + 1 < n.BroadcastAddress) : n.NextIP a = (a + 1, none) := by
  have hp : 0 < 2 ^ n.hostBits := Nat.pow_pos (by decide)
  have hv' := hv
  obtain ⟨ho, hmod, htop⟩ := hv'
  simp only [Net4.BroadcastAddress] at h
  have hca : n.Contains a = true := by rw [Net4.contains_iff hv]; omega
  have hx : iplib.NextIP a = a + 1 := iplib.NextIP_of_lt (by omega)
  have hcx : n.Contains (a + 1) = true := by rw [Net4.contains_iff hv]; omega
  have hb : (n.BroadcastAddress == a + 1) = false := by
    simp only [Net4.BroadcastAddress, beq_eq_false_iff_ne, ne_eq]; omega
  simp [Net4.NextIP, hca, hx, hcx, hb]

theorem Net4.firstAddress_inRange {n : Net4} (hv : n.Valid) :
    n.InRange n.FirstAddress ∧ n.remaining n.FirstAddress ≤ 2 ^ n.hostBits := by
  obtain ⟨ho, hmod, htop⟩ := hv
  have hp : 0 < 2 ^ n.hostBits := Nat.pow_pos (by decide)
  simp only [Net4.InRange, Net4.remaining, Net4.FirstAddress, Net4.BroadcastAddress]
  by_cases h31 : 31 ≤ n.ones
  · simp only [h31, if_true]
    by_cases h32 : n.ones = 32
    · have h0 : n.hostBits = 0 := by simp [Net4.hostBits, h32]
      simp [h0, h32]
    · have h1 : n.hostBits = 1 := by simp only [Net4.hostBits]; omega
      simp [h1]
  · simp only [h31, if_false]
    have h4 : 2 ^ 2 ≤ 2 ^ n.hostBits :=
      Nat.pow_le_pow_right (by decide) (by simp only [Net4.hostBits]; omega)
    have hx : iplib.NextIP n.IP = n.IP + 1 := iplib.NextIP_of_lt (by omega)
    rw [hx]
    refine ⟨⟨by omega, by omega, Or.inl (by omega)⟩, ?_⟩
    omega

/-- The loop of `GetFreeIp` returns: from a position of the block, as many iterations as there
are addresses left are enough. -/
theorem GetFreeIpLoop_isSome (env : Env) {n : Net4} (hv : n.Valid) (dstPort : Int) :
    ∀ (fuel attempt a : Nat), n.InRange a → n.remaining a ≤ fuel →
      (GetFreeIpLoop env n dstPort fuel attempt a).isSome = true := by
  intro fuel
  induction fuel with
  | zero =>
    intro attempt a _ hf
    simp only [Net4.remaining] at hf
    omega
  | succ fuel ih =>
    intro attempt a hin hf
    obtain ⟨hlo, hhi, hlt⟩ := hin
    simp only [GetFreeIpLoop]
    cases env.DialUDP attempt ⟨a, env.NmProxyPort⟩ ⟨loopback, dstPort⟩ with
    | none => simp
    | some err =>
      by_cases hc : isContention err = true
      · simp only [hc, if_true]
        rcases hN : n.NextIP a with ⟨x, _ | nErr⟩
        · obtain ⟨hx, hxlt⟩ := Net4.nextIP_ok hv hlo hhi hlt hN
          subst hx
          have := ih (attempt + 1) (a + 1) ⟨by omega, by omega, Or.inl hxlt⟩
            (by simp only [Net4.remaining] at hf ⊢; omega)
          simpa using this
        · simp
      · simp [hc]

/-- The function `GetFreeIp` returns on every input: the iterations it is given are never used
up on a range made of a 32-bit address and a mask length of at most 32. -/
theorem GetFreeIp_returns (env : Env) (cidrAddr : CIDR) (dstPort : Int)
    (hvalid : ∀ ip masklen, cidrAddr = CIDR.v4 ip masklen → ip < 2 ^ 32 ∧ masklen ≤ 32) :
    (GetFreeIp env cidrAddr dstPort).isSome = true := by
  unfold GetFreeIp
  split
  · rfl
  · cases cidrAddr with
    | invalid err => rfl
    | v4 ip masklen =>
      obtain ⟨hip, hm⟩ := hvalid ip masklen rfl
      have hv := NewNet4_valid ip masklen hip hm
      obtain ⟨hin, hf⟩ := Net4.firstAddress_inRange hv
      exact GetFreeIpLoop_isSome env hv dstPort _ 0 _ hin hf

/-- The candidates from a position of the block are the consecutive addresses from there up to
the one before the broadcast address. -/
theorem candidatesFrom_eq_range {n : Net4} (hv : n.Valid) :
    ∀ (fuel a : Nat), n.InRange a → n.remaining a ≤ fuel →
      candidatesFrom n fuel a = List.range' a (n.remaining a) := by
  intro fuel
  induction fuel with
  | zero =>
    intro a _ hf
    simp only [Net4.remaining] at hf
    omega
  | succ fuel ih =>
    intro a hin hf
    obtain ⟨hlo, hhi, hlt⟩ := hin
    simp only [candidatesFrom]
    by_cases hs : a + 1 < n.BroadcastAddress
    · rw [Net4.nextIP_succ hv hlo hs]
      simp only
      rw [ih (a + 1) ⟨by omega, by omega, Or.inl hs⟩
        (by simp only [Net4.remaining] at hf ⊢; omega)]
      have hr : n.remaining a = n.remaining (a + 1) + 1 := by
        simp only [Net4.remaining]; omega
      rw [hr, List.range'_succ]
    · have hr : n.remaining a = 1 := by simp only [Net4.remaining]; omega
      rcases hN : n.NextIP a with ⟨x, _ | nErr⟩
      · exact absurd (Net4.nextIP_ok hv hlo hhi hlt hN).2 hs
      · simp [hr]

/-- The candidates of a valid range: consecutive addresses starting at `FirstAddress`. -/
theorem candidates_eq_range {n : Net4} (hv : n.Valid) :
    candidates n = List.range' n.FirstAddress (n.remaining n.FirstAddress) := by
  obtain ⟨hin, hf⟩ := Net4.firstAddress_inRange hv
  exact candidatesFrom_eq_range hv _ _ hin hf

/-- An error of `Net4.NextIP` is one of the two errors of the library. -/
theorem Net4.nextIP_err {n : Net4} {a x : Nat} {e : String} (h : n.NextIP a = (x, some e)) :
    e = ErrAddressOutOfRange ∨ e = ErrBroadcastAddress := by
  simp only [Net4.NextIP] at h
  split at h
  · simp only [Prod.mk.injEq, Option.some.injEq] at h; exact Or.inl h.2.symm
  · split at h
    · simp only [Prod.mk.injEq, Option.some.injEq] at h; exact Or.inl h.2.symm
    · split at h
      · simp only [Prod.mk.injEq, Option.some.injEq] at h; exact Or.inr h.2.symm
      · simp at h

/-! ## The loop of `GetFreeIp` along the candidates -/

theorem dialed_append (xs ys : List Event) : dialed (xs ++ ys) = dialed xs ++ dialed ys := by
  induction xs with
  | nil => rfl
  | cons e xs ih => cases e <;> simp [dialed, ih]

theorem dialed_aliasEvents (env : Env) (a : Nat) : dialed (aliasEvents env a) = [] := by
  unfold aliasEvents
  split <;> rfl

theorem dialed_pre (env : Env) (a : Nat) (raddr : UDPAddr) (rest : List Event) :
    dialed (aliasEvents env a ++ [Event.DialUDP ⟨a, env.NmProxyPort⟩ raddr] ++ rest)
      = a :: dialed rest := by
  simp [dialed_append, dialed_aliasEvents, dialed]

/-- The first `k` candidates fail with a contention error and the dial of candidate `k + 1`
(`ak`) has outcome `out`, which is a success or an error of another kind: the loop dials
candidates `1..k+1` and stops there, with the address on success and with that error otherwise. -/
theorem GetFreeIpLoop_stops (env : Env) (n : Net4) (dstPort : Int) (out : Option String)
    (hout : ∀ e, out = some e → isContention e = false) :
    ∀ (fuel k attempt a ak : Nat),
      (candidatesFrom n fuel a)[k]? = some ak →
      (∀ i c, i < k → (candidatesFrom n fuel a)[i]? = some c →
        ∃ e, env.DialUDP (attempt + i) ⟨c, env.NmProxyPort⟩ ⟨loopback, dstPort⟩ = some e ∧
          isContention e = true) →
      env.DialUDP (attempt + k) ⟨ak, env.NmProxyPort⟩ ⟨loopback, dstPort⟩ = out →
      ∃ tr, GetFreeIpLoop env n dstPort fuel attempt a
          = some ⟨if out = none then IPString ak else "", out, tr⟩ ∧
        dialed tr = (candidatesFrom n fuel a).take (k + 1) := by
  intro fuel
  induction fuel with
  | zero => intro k attempt a ak hk; simp [candidatesFrom] at hk
  | succ fuel ih =>
    intro k attempt a ak hk hfail hlast
    cases k with
    | zero =>
      simp only [candidatesFrom, List.getElem?_cons_zero, Option.some.injEq] at hk
      subst hk
      simp only [Nat.add_zero] at hlast
      cases out with
      | none =>
        refine ⟨_, by simp only [GetFreeIpLoop, hlast]; rfl, ?_⟩
        rw [dialed_pre]; simp [candidatesFrom, dialed]
      | some e =>
        have he := hout e rfl
        refine ⟨_, by simp only [GetFreeIpLoop, hlast, he]; rfl, ?_⟩
        have := dialed_pre env a ⟨loopback, dstPort⟩ []
        simp only [List.append_nil] at this
        rw [this]; simp [candidatesFrom, dialed]
    | succ k =>
      obtain ⟨e, he, hce⟩ := hfail 0 a (Nat.succ_pos k) (by simp [candidatesFrom])
      simp only [Nat.add_zero] at he
      rcases hN : n.NextIP a with ⟨x, _ | nErr⟩
      · simp only [candidatesFrom, hN, List.getElem?_cons_succ] at hk hfail
        obtain ⟨tr, htr, hd⟩ := ih k (attempt + 1) x ak hk
          (fun i c hi hc => by
            have := hfail (i + 1) c (by omega) (by simpa using hc)
            simpa [Nat.add_assoc, Nat.add_comm 1 i] using this)
          (by simpa [Nat.add_assoc, Nat.add_comm 1 k] using hlast)
        refine ⟨_, by simp only [GetFreeIpLoop, he, hce, if_true, hN, htr]; rfl, ?_⟩
        rw [dialed_pre, hd]
        simp [candidatesFrom, hN]
      · simp [candidatesFrom, hN] at hk

/-- Every candidate from `a` on fails with a contention error: the loop dials each of them once,
in order, and returns the error of `NextIP` with an empty address. -/
theorem GetFreeIpLoop_exhausts (env : Env) {n : Net4} (hv : n.Valid) (dstPort : Int) :
    ∀ (fuel attempt a : Nat), n.InRange a → n.remaining a ≤ fuel →
      (∀ i c, (candidatesFrom n fuel a)[i]? = some c →
        ∃ e, env.DialUDP (attempt + i) ⟨c, env.NmProxyPort⟩ ⟨loopback, dstPort⟩ = some e ∧
          isContention e = true) →
      ∃ nErr tr, GetFreeIpLoop env n dstPort fuel attempt a = some ⟨"", some nErr, tr⟩ ∧
        (nErr = ErrAddressOutOfRange ∨ nErr = ErrBroadcastAddress) ∧
        dialed tr = candidatesFrom n fuel a := by
  intro fuel
  induction fuel with
  | zero =>
    intro attempt a _ hf
    simp only [Net4.remaining] at hf
    omega
  | succ fuel ih =>
    intro attempt a hin hf hfail
    obtain ⟨hlo, hhi, hlt⟩ := hin
    obtain ⟨e, he, hce⟩ := hfail 0 a (by simp [candidatesFrom])
    simp only [Nat.add_zero] at he
    rcases hN : n.NextIP a with ⟨x, _ | nErr⟩
    · obtain ⟨hx, hxlt⟩ := Net4.nextIP_ok hv hlo hhi hlt hN
      subst hx
      simp only [candidatesFrom, hN] at hfail
      obtain ⟨nErr, tr, htr, hk, hd⟩ := ih (attempt + 1) (a + 1) ⟨by omega, by omega, Or.inl hxlt⟩
        (by simp only [Net4.remaining] at hf ⊢; omega)
        (fun i c hc => by
          have := hfail (i + 1) c (by simpa using hc)
          simpa [Nat.add_assoc, Nat.add_comm 1 i] using this)
      refine ⟨nErr, _, by simp only [GetFreeIpLoop, he, hce, if_true, hN, htr]; rfl, hk, ?_⟩
      rw [dialed_pre, hd]
      simp [candidatesFrom, hN]
    · refine ⟨nErr, _, by simp only [GetFreeIpLoop, he, hce, if_true, hN]; rfl,
        Net4.nextIP_err hN, ?_⟩
      have := dialed_pre env a ⟨loopback, dstPort⟩ []
      simp only [List.append_nil] at this
      rw [this]; simp [candidatesFrom, hN, dialed]

theorem take_range'_of_le (s : Nat) : ∀ (m n : Nat), m ≤ n →
    List.take m (List.range' s n) = List.range' s m := by
  intro m
  induction m generalizing s with
  | zero => intro n _; simp
  | succ m ih =>
    intro n hmn
    obtain ⟨n', rfl⟩ : ∃ n', n = n' + 1 := ⟨n - 1, by omega⟩
    rw [List.range'_succ, List.take_succ_cons, ih (s + 1) n' (by omega), List.range'_succ]

/-! ## The claims on `GetFreeIp` -/

/-- C1: for a valid IPv4 range and a non-zero `dstPort`, when the first `k` candidates (in the
order `FirstAddress, NextIP, NextIP, ...`) fail to dial with a contention error and candidate
`k + 1` dials successfully, `GetFreeIp` returns candidate `k + 1`, as the dotted-decimal text of
its four bytes, with a nil error, and its dial attempts are exactly the first `k + 1` candidates,
which are the `k + 1` consecutive addresses from `FirstAddress` on. -/
theorem GetFreeIp_returns_first_free (env : Env) (ip masklen : Nat) (dstPort : Int) (k ak : Nat)
    (hip : ip < 2 ^ 32) (hm : masklen ≤ 32) (hport : dstPort ≠ 0)
    (hk : (candidates (NewNet4 ip masklen))[k]? = some ak)
    (hfail : ∀ i c, i < k → (candidates (NewNet4 ip masklen))[i]? = some c →
      ∃ e, env.DialUDP i ⟨c, env.NmProxyPort⟩ ⟨loopback, dstPort⟩ = some e ∧
        isContention e = true)
    (hfree : env.DialUDP k ⟨ak, env.NmProxyPort⟩ ⟨loopback, dstPort⟩ = none) :
    ∃ tr, GetFreeIp env (CIDR.v4 ip masklen) dstPort
        = some ⟨toString (ak / 2 ^ 24 % 256) ++ "." ++ toString (ak / 2 ^ 16 % 256) ++ "." ++
            toString (ak / 2 ^ 8 % 256) ++ "." ++ toString (ak % 256), none, tr⟩ ∧
      dialed tr = (candidates (NewNet4 ip masklen)).take (k + 1) ∧
      dialed tr = List.range' (NewNet4 ip masklen).FirstAddress (k + 1) ∧
      (dialed tr).length = k + 1 ∧
      (dialed tr)[k]? = some ak := by
  have hv := NewNet4_valid ip masklen hip hm
  obtain ⟨tr, htr, hd⟩ := GetFreeIpLoop_stops env (NewNet4 ip masklen) dstPort none
    (by intro e he; cases he) _ k 0 _ ak hk
    (by intro i c hi hc; simpa using hfail i c hi hc) (by simpa using hfree)
  have hlen : k < (candidates (NewNet4 ip masklen)).length :=
    (List.getElem?_eq_some.mp hk).1
  have hc : dialed tr = (candidates (NewNet4 ip masklen)).take (k + 1) := hd
  have hr : dialed tr = List.range' (NewNet4 ip masklen).FirstAddress (k + 1) := by
    rw [hc, candidates_eq_range hv]
    rw [candidates_eq_range hv, List.length_range'] at hlen
    exact take_range'_of_le _ _ _ (by omega)
  refine ⟨tr, ?_, hc, hr, ?_, ?_⟩
  · have h := htr
    simp only [if_true] at h
    simpa [GetFreeIp, hport, IPString] using h
  · rw [hr, List.length_range']
  · rw [hc, List.getElem?_take_of_succ]
    exact hk

/-- C2: for a valid IPv4 range and a non-zero `dstPort`, when every candidate of the range fails
to dial with a contention error, `GetFreeIp` returns (the loop ends), with an empty address and
a non-nil error, which is one of the two errors by which `NextIP` reports the end of the range;
its dial attempts are exactly the candidates of the range, each once. -/
theorem GetFreeIp_exhausted (env : Env) (ip masklen : Nat) (dstPort : Int)
    (hip : ip < 2 ^ 32) (hm : masklen ≤ 32) (hport : dstPort ≠ 0)
    (hfail : ∀ i c, (candidates (NewNet4 ip masklen))[i]? = some c →
      ∃ e, env.DialUDP i ⟨c, env.NmProxyPort⟩ ⟨loopback, dstPort⟩ = some e ∧
        isContention e = true) :
    ∃ nErr tr, GetFreeIp env (CIDR.v4 ip masklen) dstPort = some ⟨"", some nErr, tr⟩ ∧
      (nErr = ErrAddressOutOfRange ∨ nErr = ErrBroadcastAddress) ∧
      dialed tr = candidates (NewNet4 ip masklen) ∧
      (dialed tr).Nodup := by
  have hv := NewNet4_valid ip masklen hip hm
  obtain ⟨hin, hf⟩ := Net4.firstAddress_inRange hv
  obtain ⟨nErr, tr, htr, hN, hd⟩ := GetFreeIpLoop_exhausts env hv dstPort _ 0 _ hin hf
    (by intro i c hc; simpa using hfail i c hc)
  have hc : dialed tr = candidates (NewNet4 ip masklen) := hd
  refine ⟨nErr, tr, by simpa [GetFreeIp, hport] using htr, hN, hc, ?_⟩
  rw [hc, candidates_eq_range hv]
  exact List.nodup_range' _ _

/-- C1 at a concrete input: in 10.0.0.0/29 with 10.0.0.1 and 10.0.0.2 bound, the allocator dials
10.0.0.1, 10.0.0.2, 10.0.0.3 and returns the text "10.0.0.3" with a nil error. -/
theorem GetFreeIp_returns_first_free_witness :
    ∃ tr, GetFreeIp (envBound [167772161, 167772162]) (CIDR.v4 167772160 29) 51820
        = some ⟨"10.0.0.3", none, tr⟩ ∧
      dialed tr = [167772161, 167772162, 167772163] := by
  obtain ⟨tr, hret, _, hdial, _, _⟩ :=
    GetFreeIp_returns_first_free (envBound [167772161, 167772162]) 167772160 29 51820
      2 167772163 (by decide) (by decide) (by decide) (by decide)
      (by
        intro i c hi hc
        have h0 : (candidates (NewNet4 167772160 29))[0]? = some 167772161 := by decide
        have h1 : (candidates (NewNet4 167772160 29))[1]? = some 167772162 := by decide
        match i, hi with
        | 0, _ =>
          rw [h0] at hc
          cases hc
          exact ⟨errInUse, by decide, by decide⟩
        | 1, _ =>
          rw [h1] at hc
          cases hc
          exact ⟨errInUse, by decide, by decide⟩)
      (by decide)
  have hs : toString (167772163 / 2 ^ 24 % 256) ++ "." ++ toString (167772163 / 2 ^ 16 % 256)
      ++ "." ++ toString (167772163 / 2 ^ 8 % 256) ++ "." ++ toString (167772163 % 256)
      = "10.0.0.3" := by decide
  have hl : List.range' (NewNet4 167772160 29).FirstAddress (2 + 1)
      = [167772161, 167772162, 167772163] := by decide
  rw [hs] at hret
  rw [hl] at hdial
  exact ⟨tr, hret, hdial⟩

/-- C2 at a concrete input: in 10.0.0.0/29 with all six candidates bound, the allocator dials
each of them once and returns an error. -/
theorem GetFreeIp_exhausted_witness :
    ∃ nErr tr, GetFreeIp (envBound (candidates (NewNet4 (ipv4 10 0 0 0) 29)))
        (CIDR.v4 (ipv4 10 0 0 0) 29) 51820 = some ⟨"", some nErr, tr⟩ ∧
      (nErr = ErrAddressOutOfRange ∨ nErr = ErrBroadcastAddress) ∧
      dialed tr = candidates (NewNet4 (ipv4 10 0 0 0) 29) ∧
      (dialed tr).Nodup :=
  GetFreeIp_exhausted (envBound (candidates (NewNet4 (ipv4 10 0 0 0) 29))) (ipv4 10 0 0 0) 29
    51820 (by decide) (by decide) (by decide)
    (by
      intro i c hc
      have hmem : c ∈ candidates (NewNet4 (ipv4 10 0 0 0) 29) := List.getElem?_mem hc
      exact ⟨errInUse, by simp [envBound, hmem], by decide⟩)

/-- C3, as stated, fails: in 10.0.0.0/30 with 10.0.0.1 and 10.0.0.2 bound and every other address
free, the candidates are only 10.0.0.1 and 10.0.0.2, and the allocator returns the broadcast
error of `NextIP` with an empty address, without dialling 10.0.0.3. -/
theorem GetFreeIp_slash30_third_not_tried :
    candidates (NewNet4 (ipv4 10 0 0 0) 30) = [ipv4 10 0 0 1, ipv4 10 0 0 2] ∧
    (envBound [ipv4 10 0 0 1, ipv4 10 0 0 2]).DialUDP 2 ⟨ipv4 10 0 0 3, 51722⟩ ⟨loopback, 51820⟩
      = none ∧
    GetFreeIp (envBound [ipv4 10 0 0 1, ipv4 10 0 0 2]) (CIDR.v4 (ipv4 10 0 0 0) 30) 51820
      = some ⟨"", some ErrBroadcastAddress,
          [Event.DialUDP ⟨ipv4 10 0 0 1, 51722⟩ ⟨loopback, 51820⟩,
           Event.DialUDP ⟨ipv4 10 0 0 2, 51722⟩ ⟨loopback, 51820⟩]⟩ := by
  decide

/-- C3, amended: the range 10.0.0.0/30 has two candidates, 10.0.0.1 and 10.0.0.2. When the first
is bound, then with the second free `GetFreeIp` returns 10.0.0.2 with no error, and with the
second bound as well it returns the broadcast error of `NextIP` with an empty address; in both
cases exactly these two addresses are dialled. -/
theorem GetFreeIp_slash30 (env : Env) (dstPort : Int) (e1 : String) (hport : dstPort ≠ 0)
    (h1 : env.DialUDP 0 ⟨ipv4 10 0 0 1, env.NmProxyPort⟩ ⟨loopback, dstPort⟩ = some e1)
    (hc1 : isContention e1 = true) :
    candidates (NewNet4 (ipv4 10 0 0 0) 30) = [ipv4 10 0 0 1, ipv4 10 0 0 2] ∧
    (env.DialUDP 1 ⟨ipv4 10 0 0 2, env.NmProxyPort⟩ ⟨loopback, dstPort⟩ = none →
      ∃ tr, GetFreeIp env (CIDR.v4 (ipv4 10 0 0 0) 30) dstPort = some ⟨"10.0.0.2", none, tr⟩ ∧
        dialed tr = [ipv4 10 0 0 1, ipv4 10 0 0 2]) ∧
    (∀ e2, env.DialUDP 1 ⟨ipv4 10 0 0 2, env.NmProxyPort⟩ ⟨loopback, dstPort⟩ = some e2 →
      isContention e2 = true →
      ∃ tr, GetFreeIp env (CIDR.v4 (ipv4 10 0 0 0) 30) dstPort
          = some ⟨"", some ErrBroadcastAddress, tr⟩ ∧
        dialed tr = [ipv4 10 0 0 1, ipv4 10 0 0 2]) := by
  have hn : NewNet4 (ipv4 10 0 0 0) 30 = ⟨ipv4 10 0 0 0, 30⟩ := by decide
  have hfuel : 2 ^ (⟨ipv4 10 0 0 0, 30⟩ : Net4).hostBits = 2 + 2 := by decide
  have hfirst : (⟨ipv4 10 0 0 0, 30⟩ : Net4).FirstAddress = ipv4 10 0 0 1 := by decide
  have hN1 : (⟨ipv4 10 0 0 0, 30⟩ : Net4).NextIP (ipv4 10 0 0 1) = (ipv4 10 0 0 2, none) := by
    decide
  have hN2 : (⟨ipv4 10 0 0 0, 30⟩ : Net4).NextIP (ipv4 10 0 0 2)
      = (ipv4 10 0 0 3, some ErrBroadcastAddress) := by decide
  have hs : IPString (ipv4 10 0 0 2) = "10.0.0.2" := by decide
  refine ⟨by decide, ?_, ?_⟩
  · intro h2
    refine ⟨_, by
      simp only [GetFreeIp, hport, if_false, hn, hfuel, hfirst, GetFreeIpLoop, h1, hc1, if_true,
        hN1, h2, hs, Option.map_some', Ret.after]; rfl, ?_⟩
    simp [dialed_append, dialed_aliasEvents, dialed]
  · intro e2 h2 hc2
    refine ⟨_, by
      simp only [GetFreeIp, hport, if_false, hn, hfuel, hfirst, GetFreeIpLoop, h1, hc1, if_true,
        hN1, h2, hc2, hN2, Option.map_some', Ret.after]; rfl, ?_⟩
    simp [dialed_append, dialed_aliasEvents, dialed]

/-- C3, amended, at concrete inputs: with only 10.0.0.1 bound the allocator returns 10.0.0.2, and
with 10.0.0.1 and 10.0.0.2 bound it returns the broadcast error. -/
theorem GetFreeIp_slash30_witness :
    (∃ tr, GetFreeIp (envBound [ipv4 10 0 0 1]) (CIDR.v4 (ipv4 10 0 0 0) 30) 51820
        = some ⟨"10.0.0.2", none, tr⟩ ∧
      dialed tr = [ipv4 10 0 0 1, ipv4 10 0 0 2]) ∧
    (∃ tr, GetFreeIp (envBound [ipv4 10 0 0 1, ipv4 10 0 0 2]) (CIDR.v4 (ipv4 10 0 0 0) 30) 51820
        = some ⟨"", some ErrBroadcastAddress, tr⟩ ∧
      dialed tr = [ipv4 10 0 0 1, ipv4 10 0 0 2]) :=
  ⟨(GetFreeIp_slash30 (envBound [ipv4 10 0 0 1]) 51820 errInUse (by decide) (by decide)
      (by decide)).2.1 (by decide),
    (GetFreeIp_slash30 (envBound [ipv4 10 0 0 1, ipv4 10 0 0 2]) 51820 errInUse (by decide)
      (by decide) (by decide)).2.2 errInUse (by decide) (by decide)⟩

/-- C4: for a non-zero `dstPort`, when the first `k` candidates of the range fail to dial with a
contention error and the dial of candidate `k + 1` fails with an error `e` whose text contains
none of the three contention texts, `GetFreeIp` returns `e` itself with an empty address, and its
dial attempts are the first `k + 1` candidates only: no later candidate is dialled. -/
theorem GetFreeIp_other_error_is_fatal (env : Env) (ip masklen : Nat) (dstPort : Int)
    (k ak : Nat) (e : String) (hport : dstPort ≠ 0)
    (hk : (candidates (NewNet4 ip masklen))[k]? = some ak)
    (hfail : ∀ i c, i < k → (candidates (NewNet4 ip masklen))[i]? = some c →
      ∃ e', env.DialUDP i ⟨c, env.NmProxyPort⟩ ⟨loopback, dstPort⟩ = some e' ∧
        isContention e' = true)
    (herr : env.DialUDP k ⟨ak, env.NmProxyPort⟩ ⟨loopback, dstPort⟩ = some e)
    (h1 : strings.Contains e "can't assign requested address" = false)
    (h2 : strings.Contains e "address already in use" = false)
    (h3 : strings.Contains e "cannot assign requested address" = false) :
    ∃ tr, GetFreeIp env (CIDR.v4 ip masklen) dstPort = some ⟨"", some e, tr⟩ ∧
      dialed tr = (candidates (NewNet4 ip masklen)).take (k + 1) ∧
      (dialed tr).length = k + 1 := by
  obtain ⟨tr, htr, hd⟩ := GetFreeIpLoop_stops env (NewNet4 ip masklen) dstPort (some e)
    (by intro e' he; cases he; simp [isContention, h1, h2, h3]) _ k 0 _ ak hk
    (by intro i c hi hc; simpa using hfail i c hi hc) (by simpa using herr)
  have hc : dialed tr = (candidates (NewNet4 ip masklen)).take (k + 1) := hd
  have hlen : k < (candidates (NewNet4 ip masklen)).length :=
    (List.getElem?_eq_some.mp hk).1
  refine ⟨tr, by simpa [GetFreeIp, hport] using htr, hc, ?_⟩
  rw [hc, List.length_take]
  omega

/-- C4 at a concrete input: in 10.0.0.0/29 with 10.0.0.1 bound and the dial from 10.0.0.2 refused
for lack of permission, the allocator returns that error after two dials. -/
theorem GetFreeIp_other_error_is_fatal_witness :
    ∃ tr, GetFreeIp (envDenied [ipv4 10 0 0 1] (ipv4 10 0 0 2)) (CIDR.v4 (ipv4 10 0 0 0) 29) 51820
        = some ⟨"", some errDenied, tr⟩ ∧
      dialed tr = (candidates (NewNet4 (ipv4 10 0 0 0) 29)).take (1 + 1) ∧
      (dialed tr).length = 1 + 1 :=
  GetFreeIp_other_error_is_fatal (envDenied [ipv4 10 0 0 1] (ipv4 10 0 0 2)) (ipv4 10 0 0 0) 29
    51820 1 (ipv4 10 0 0 2) errDenied (by decide) (by decide)
    (by
      intro i c hi hc
      have h0 : (candidates (NewNet4 (ipv4 10 0 0 0) 29))[0]? = some (ipv4 10 0 0 1) := by decide
      match i, hi with
      | 0, _ =>
        rw [h0] at hc
        cases hc
        exact ⟨errInUse, by decide, by decide⟩)
    (by decide) (by decide) (by decide) (by decide)

/-! ## The relay loop -/

theorem Next.state_loop (s : State) : (Next.loop s).state = s := rfl

theorem Next.state_exit (s : State) : (Next.exit s).state = s := rfl

theorem Store.get_set_self (m : Store) (k : String) (v : Metric) : (m.set k v).get k = v := by
  simp [Store.get, Store.set]

theorem Store.get_set_of_ne (m : Store) {k k' : String} (v : Metric) (h : k' ≠ k) :
    (m.set k v).get k' = m.get k' := by
  simp [Store.get, Store.set, h]

theorem doneBranch_MetricsMap (plat : Platform) (p : Proxy) (s : State) :
    (doneBranch plat p s).MetricsMap = s.MetricsMap := by
  unfold doneBranch
  split
  · split
    · rfl
    · split <;> rfl
  · rfl

theorem doneBranch_reads (plat : Platform) (p : Proxy) (s : State) :
    reads (doneBranch plat p s).events = reads s.events := by
  have happ : ∀ (xs : List Event) (c : String), reads (xs ++ [Event.RunCmd c]) = reads xs := by
    intro xs c
    induction xs with
    | nil => rfl
    | cons e xs ih => cases e <;> simp [reads, ih]
  unfold doneBranch
  split
  · split
    · rfl
    · split
      · exact happ _ _
      · rfl
  · rfl

theorem reads_append (xs ys : List Event) : reads (xs ++ ys) = reads xs + reads ys := by
  induction xs with
  | nil => simp [reads]
  | cons e xs ih => cases e <;> simp [reads, ih]; omega

theorem written_append (xs ys : List Event) : written (xs ++ ys) = written xs ++ written ys := by
  induction xs with
  | nil => rfl
  | cons e xs ih => cases e <;> simp [written, ih]

/-- C5: in an iteration that takes the read case, reads successfully, and finds the session's
`RemoteKey` absent from the presence set, `p.Cancel()` is called, `ProxyToRemote` returns in that
iteration, and nothing is written to the relay socket (the effects of the iteration are the read
and the cancel only); the metrics store is left as it was. -/
theorem ProxyToRemote_absent_peer_cancels (plat : Platform) (p : Proxy) (inp : Input) (s : State)
    (data : List Nat)
    (hsel : select s.done s.tick inp.pickTick = Branch.default)
    (hread : inp.read = .ok data)
    (habs : inp.PeerMap p.Config.RemoteKey = false) :
    ∃ s', step plat p inp s = Next.exit s' ∧ s'.done = true ∧
      s'.events = s.events ++ [Event.Read, Event.Cancel] ∧
      written s'.events = written s.events ∧
      s'.MetricsMap = s.MetricsMap := by
  refine ⟨{ s with
      done := true
      buf := data ++ s.buf.drop data.length
      events := s.events ++ [Event.Read, Event.Cancel] }, ?_, rfl, rfl, ?_, rfl⟩
  · simp [step, hsel, defaultBranch, hread, habs]
  · simp [written_append, written]

/-- C5 at a concrete input: a 100-byte read with `peerK` absent. -/
theorem ProxyToRemote_absent_peer_cancels_witness :
    ∃ s', step (platform "linux") proxyK (inputK (List.replicate 100 0) false)
        (stateK false false 0) = Next.exit s' ∧ s'.done = true ∧
      s'.events = (stateK false false 0).events ++ [Event.Read, Event.Cancel] ∧
      written s'.events = written (stateK false false 0).events ∧
      s'.MetricsMap = (stateK false false 0).MetricsMap :=
  ProxyToRemote_absent_peer_cancels (platform "linux") proxyK (inputK (List.replicate 100 0) false)
    (stateK false false 0) (List.replicate 100 0) (by decide) rfl rfl

/-- C6, as stated, fails: after a successful read of 100 bytes with `peerK` absent from the
presence set, the `TrafficSent` counter of `peerK` is what it was before (5), not 105. -/
theorem ProxyToRemote_absent_peer_not_counted :
    (inputK (List.replicate 100 0) false).read = .ok (List.replicate 100 0) ∧
    ((stateK false false 5).MetricsMap.get "peerK").TrafficSent = 5 ∧
    ((step (platform "linux") proxyK (inputK (List.replicate 100 0) false)
      (stateK false false 5)).state.MetricsMap.get "peerK").TrafficSent = 5 :=
  ⟨rfl, by decide, by decide⟩

/-- C6, amended: in an iteration whose read succeeds with `n` bytes, the `TrafficSent` counter of
the session's `RemoteKey` becomes the old value plus `n` (modulo 2^64) when the peer is in the
presence set, and is unchanged when the peer is absent. -/
theorem ProxyToRemote_read_counts_when_present (plat : Platform) (p : Proxy) (inp : Input)
    (s : State) (data : List Nat)
    (hsel : select s.done s.tick inp.pickTick = Branch.default)
    (hread : inp.read = .ok data) :
    ((step plat p inp s).state.MetricsMap.get p.Config.RemoteKey).TrafficSent
      = if inp.PeerMap p.Config.RemoteKey = true then
          ((s.MetricsMap.get p.Config.RemoteKey).TrafficSent + data.length) % 2 ^ 64
        else (s.MetricsMap.get p.Config.RemoteKey).TrafficSent := by
  simp only [step, hsel, defaultBranch, hread]
  by_cases hp : inp.PeerMap p.Config.RemoteKey = true
  · simp only [hp, if_true, Next.state, Store.get_set_self]
  · simp only [hp, Bool.false_eq_true, if_false, Next.state]

/-- C6, amended, at a concrete input: a 100-byte read with `peerK` present takes the counter from
5 to 105. -/
theorem ProxyToRemote_read_counts_when_present_witness :
    ((step (platform "linux") proxyK (inputK (List.replicate 100 0) true)
      (stateK false false 5)).state.MetricsMap.get "peerK").TrafficSent = 105 :=
  (ProxyToRemote_read_counts_when_present (platform "linux") proxyK
    (inputK (List.replicate 100 0) true) (stateK false false 5) (List.replicate 100 0)
    (by decide) rfl).trans (by decide)

/-- C7, as stated, fails: with the counter of `peerK` at 2^64 - 1, a successful read of one byte
with the peer present wraps the counter to 0, which is below the value before the step. -/
theorem TrafficSent_wraps :
    ((stateK false false (2 ^ 64 - 1)).MetricsMap.get "peerK").TrafficSent = 2 ^ 64 - 1 ∧
    ((step (platform "linux") proxyK (inputK [0] true)
      (stateK false false (2 ^ 64 - 1))).state.MetricsMap.get "peerK").TrafficSent = 0 ∧
    ¬ ((stateK false false (2 ^ 64 - 1)).MetricsMap.get "peerK").TrafficSent
      ≤ ((step (platform "linux") proxyK (inputK [0] true)
        (stateK false false (2 ^ 64 - 1))).state.MetricsMap.get "peerK").TrafficSent := by
  decide

/-- C7, amended: for every peer key `K` and every iteration of the loop (whichever case it
takes), the `TrafficSent` counter of `K` after the iteration is at least its value before,
provided the addition of the bytes read does not wrap the 64-bit counter of the session's
`RemoteKey`. -/
theorem TrafficSent_monotone_without_wrap (plat : Platform) (p : Proxy) (inp : Input) (s : State)
    (K : String)
    (hnowrap : ∀ data, inp.read = .ok data →
      (s.MetricsMap.get p.Config.RemoteKey).TrafficSent + data.length < 2 ^ 64) :
    (s.MetricsMap.get K).TrafficSent
      ≤ ((step plat p inp s).state.MetricsMap.get K).TrafficSent := by
  unfold step
  cases select s.done s.tick inp.pickTick with
  | done => simp only [Next.state, doneBranch_MetricsMap]; exact Nat.le_refl _
  | tick =>
    have hm : (tickBranch plat p inp s).MetricsMap
        = s.MetricsMap.set p.Config.RemoteKey
            { s.MetricsMap.get p.Config.RemoteKey with ConnectionStatus := false } := by
      simp [tickBranch, CreateMetricPacket]
    simp only [Next.state, hm]
    by_cases hK : K = p.Config.RemoteKey
    · subst hK; simp [Store.get_set_self]
    · simp [Store.get_set_of_ne _ _ hK]
  | default =>
    simp only [defaultBranch]
    cases hr : inp.read with
    | error e => exact Nat.le_refl _
    | ok data =>
      have hw := hnowrap data hr
      by_cases hp : inp.PeerMap p.Config.RemoteKey = true
      · simp only [hp, if_true, Next.state]
        by_cases hK : K = p.Config.RemoteKey
        · subst hK
          rw [Store.get_set_self]
          simp only
          rw [Nat.mod_eq_of_lt hw]
          omega
        · rw [Store.get_set_of_ne _ _ hK]
      · simp only [hp, Bool.false_eq_true, if_false, Next.state]
        exact Nat.le_refl _

/-- C7, amended, at a concrete input: a 100-byte read with `peerK` present and the counter
at 5. -/
theorem TrafficSent_monotone_without_wrap_witness :
    ((stateK false false 5).MetricsMap.get "peerK").TrafficSent
      ≤ ((step (platform "linux") proxyK (inputK (List.replicate 100 0) true)
        (stateK false false 5)).state.MetricsMap.get "peerK").TrafficSent :=
  TrafficSent_monotone_without_wrap (platform "linux") proxyK
    (inputK (List.replicate 100 0) true) (stateK false false 5) "peerK"
    (by
      intro data h
      have hd : data = List.replicate 100 0 := by
        have h' : (Except.ok (List.replicate 100 0) : Except String (List Nat)) = .ok data := h
        cases h'
        rfl
      subst hd
      decide)

/-- C8: an iteration that takes the timer case sets `ConnectionStatus` of the session's
`RemoteKey` to false and leaves the rest of that record as stored (its `TrafficSent` included; an
absent record is created with the zero counter), leaves the record of every other key
unchanged, writes exactly one packet to the remote relay address, the metric packet built from
`LocalKey` and `RemoteKey`, and goes on with the loop, whatever the result of the write. -/
theorem ProxyToRemote_tick (plat : Platform) (p : Proxy) (inp : Input) (s : State)
    (hsel : select s.done s.tick inp.pickTick = Branch.tick) :
    ∃ s', step plat p inp s = Next.loop s' ∧
      (∀ sent status upd, s.MetricsMap p.Config.RemoteKey = some ⟨sent, status, upd⟩ →
        s'.MetricsMap p.Config.RemoteKey = some ⟨sent, false, upd⟩) ∧
      (s.MetricsMap p.Config.RemoteKey = none →
        s'.MetricsMap p.Config.RemoteKey = some ⟨0, false, 0⟩) ∧
      (s'.MetricsMap.get p.Config.RemoteKey).ConnectionStatus = false ∧
      (s'.MetricsMap.get p.Config.RemoteKey).TrafficSent
        = (s.MetricsMap.get p.Config.RemoteKey).TrafficSent ∧
      (∀ k, k ≠ p.Config.RemoteKey → s'.MetricsMap k = s.MetricsMap k) ∧
      s'.events = s.events ++
        [Event.WriteToUDP
          (plat.encode ⟨plat.MessageMetricsType, inp.id, p.Config.LocalKey, p.Config.RemoteKey,
            inp.now⟩) p.RemoteConn] ∧
      written s'.events = written s.events ++
        [(plat.encode ⟨plat.MessageMetricsType, inp.id, p.Config.LocalKey, p.Config.RemoteKey,
            inp.now⟩, p.RemoteConn)] := by
  refine ⟨tickBranch plat p inp s, by simp only [step, hsel], ?_, ?_, ?_, ?_, ?_, ?_, ?_⟩
  · intro sent status upd hs
    simp [tickBranch, CreateMetricPacket, Store.set, Store.get, hs]
  · intro hs
    simp [tickBranch, CreateMetricPacket, Store.set, Store.get, hs, Metric.zero]
  · simp [tickBranch, CreateMetricPacket, Store.get_set_self]
  · simp [tickBranch, CreateMetricPacket, Store.get_set_self]
  · intro k hk
    simp [tickBranch, CreateMetricPacket, Store.set, hk]
  · simp [tickBranch, CreateMetricPacket]
  · simp [tickBranch, CreateMetricPacket, written_append, written]

/-- C8 at a concrete input: a tick is waiting, no cancellation, the record of `peerK` holds the
counter 5 with the status true, and the relay write fails. After the iteration the stored record
of `peerK` is the counter 5 with the status false, and the one packet written is the metric
packet. -/
theorem ProxyToRemote_tick_witness :
    ∃ s', step (platform "linux") proxyK (inputK [] true) (stateK false true 5) = Next.loop s' ∧
      s'.MetricsMap "peerK" = some ⟨5, false, 0⟩ ∧
      s'.MetricsMap "otherK" = none ∧
      s'.events = [Event.WriteToUDP [4, 7] ⟨3405803783, 51821⟩] ∧
      written s'.events = [([4, 7], ⟨3405803783, 51821⟩)] := by
  obtain ⟨s', hstep, hsome, _, _, _, hother, hev, hw⟩ :=
    ProxyToRemote_tick (platform "linux") proxyK (inputK [] true) (stateK false true 5)
      (by decide)
  refine ⟨s', hstep, hsome 5 true 0 (by decide), ?_, hev, hw⟩
  rw [hother "otherK" (by decide)]
  decide

/-- C9: on darwin, for a session bound to 10.0.0.2, the run that ends on the peer-removed path
(a successful read with `peerK` absent from the presence set) returns after `p.Cancel()` without
removing the loopback alias, while the run that ends on the cancellation case removes it once,
also after three cancellation requests. -/
theorem ProxyToRemote_peer_removed_exit_keeps_alias :
    (ProxyToRemote (platform "darwin") proxyK [(⟨0, false⟩, inputK [1, 2, 3] false)]
      (stateK false false 0)).exited = true ∧
    (ProxyToRemote (platform "darwin") proxyK [(⟨0, false⟩, inputK [1, 2, 3] false)]
      (stateK false false 0)).state.events = [Event.Read, Event.Cancel] ∧
    aliasRemovals (ProxyToRemote (platform "darwin") proxyK [(⟨0, false⟩, inputK [1, 2, 3] false)]
      (stateK false false 0)).state.events = 0 ∧
    (ProxyToRemote (platform "darwin") proxyK [(⟨3, false⟩, inputK [1, 2, 3] false)]
      (stateK false false 0)).exited = true ∧
    (ProxyToRemote (platform "darwin") proxyK [(⟨3, false⟩, inputK [1, 2, 3] false)]
      (stateK false false 0)).state.events
        = [Event.Cancel, Event.Cancel, Event.Cancel,
            Event.RunCmd "ifconfig lo0 -alias 10.0.0.2 255.255.255.255"] ∧
    aliasRemovals (ProxyToRemote (platform "darwin") proxyK [(⟨3, false⟩, inputK [1, 2, 3] false)]
      (stateK false false 0)).state.events = 1 := by
  decide

/-- C10, as stated, fails: with the cancellation signalled and a tick waiting, an iteration in
which the runtime takes the timer case handles the tick (it writes the metric packet and sets the
connection status to false) and the loop goes on; the cancellation case is not taken. -/
theorem ProxyToRemote_tick_taken_while_cancelled :
    (stateK true true 5).done = true ∧ (stateK true true 5).tick = true ∧
    (step (platform "linux") proxyK (inputK [] true) (stateK true true 5)).exited = false ∧
    (step (platform "linux") proxyK (inputK [] true) (stateK true true 5)).state.events
      = [Event.WriteToUDP [4, 7] ⟨ipv4 203 0 113 7, 51821⟩] ∧
    ((step (platform "linux") proxyK (inputK [] true)
      (stateK true true 5)).state.MetricsMap.get "peerK").ConnectionStatus = false := by
  decide

/-- C10, amended: with only the cancellation signalled the iteration takes the cancellation case,
with only a tick waiting it takes the timer case, with neither it takes the read case, and with
both it takes the timer case or the cancellation case as the runtime chooses; the local socket is
read in an iteration exactly when neither the cancellation nor a tick is pending. -/
theorem ProxyToRemote_select_cases (plat : Platform) (p : Proxy) (inp : Input) (m : Store)
    (buf : List Nat) (ev : List Event) :
    step plat p inp ⟨true, false, m, buf, ev⟩
      = Next.exit (doneBranch plat p ⟨true, false, m, buf, ev⟩) ∧
    step plat p inp ⟨false, true, m, buf, ev⟩
      = Next.loop (tickBranch plat p inp ⟨false, true, m, buf, ev⟩) ∧
    step plat p inp ⟨false, false, m, buf, ev⟩
      = defaultBranch plat p inp ⟨false, false, m, buf, ev⟩ ∧
    step plat p inp ⟨true, true, m, buf, ev⟩
      = (if inp.pickTick = true then Next.loop (tickBranch plat p inp ⟨true, true, m, buf, ev⟩)
        else Next.exit (doneBranch plat p ⟨true, true, m, buf, ev⟩)) ∧
    ∀ s : State, reads (step plat p inp s).state.events
      = reads s.events + (if (s.done || s.tick) = true then 0 else 1) := by
  refine ⟨rfl, rfl, rfl, ?_, ?_⟩
  · cases hpk : inp.pickTick <;> simp [step, select, hpk]
  · intro s
    have htick : reads (tickBranch plat p inp s).events = reads s.events := by
      simp [tickBranch, CreateMetricPacket, reads_append, reads]
    have hdef : reads (defaultBranch plat p inp s).state.events = reads s.events + 1 := by
      simp only [defaultBranch]
      cases inp.read with
      | error e => simp [Next.state, reads_append, reads]
      | ok data =>
        by_cases hp : inp.PeerMap p.Config.RemoteKey = true
        · simp [hp, Next.state, reads_append, reads]
        · simp [hp, Next.state, reads_append, reads]
    rcases s with ⟨d, t, m', b', e'⟩
    cases d <;> cases t <;> cases hpk : inp.pickTick <;>
      simp only [step, select, hpk, Next.state_loop, Next.state_exit, Bool.or_self, Bool.or_true,
        Bool.or_false, Bool.true_or, Bool.false_eq_true, if_true, if_false, doneBranch_reads,
        htick, hdef, Nat.add_zero]

end NmProxy

